import Mathlib

/-!
Shallow embedding of the handle-cache core of `http-gpio`
(src/src/application_state.rs), and proofs about it.

The embedded functions mirror `State::do_with_handle`, `State::read`,
`State::write` and `State::write_schedule`.  The external GPIO driver
(`gpio_cdev`) is a parameter (`Driver`); lock acquisitions, cache
mutations, driver calls and sleeps are recorded in an event trace so that
the locking discipline and the retry protocol can be stated.
-/

namespace HttpGpio

/-- The `GpioPath` key from application_state.rs: `chip: String`, `pin: u32`. -/
structure GpioPath where
  chip : String
  pin : Nat
deriving DecidableEq, Repr

/-- The direction of a `LineRequestFlags` value: `INPUT` or `OUTPUT`
(the only two flags the program uses). -/
inductive Direction where
  | input
  | output
deriving DecidableEq, Repr

/-- A `gpio_cdev::LineHandle` is opaque; the model keeps an identifier and
the direction the handle was requested with (the one piece of its state
the program's behaviour depends on through the driver). -/
structure LineHandle where
  hid : Nat
  dir : Direction
deriving DecidableEq, Repr

/-- The external `gpio_cdev` driver interface, as the program calls it:
`Chip::new`, `Chip::get_line`, `Line::request`, `LineHandle::get_value`,
`LineHandle::set_value`.  Each call may fail with a driver error. -/
structure Driver where
  openChip : String → Except String Unit
  getLine : String → Nat → Except String Unit
  requestLine : String → Nat → Direction → Nat → String → Except String LineHandle
  getValue : LineHandle → Except String Nat
  setValue : LineHandle → Nat → Except String Unit

/-- Observable events of one operation: lock transitions on the `RwLock`
around the pin map, cache mutations, the three driver open steps, the
start of an action attempt, value writes, and sleeps. -/
inductive Event where
  | acquireShared
  | releaseShared
  | acquireExclusive
  | releaseExclusive
  | removeEntry (p : GpioPath)
  | openDevice (path : String)
  | getLineEv (pin : Nat)
  | requestEv (dir : Direction) (defaultValue : Nat) (consumer : String)
  | insertEntry (p : GpioPath)
  | runAction (attempt : Nat)
  | setValueEv (pin : Nat) (v : Nat)
  | sleep (ms : Nat)
deriving DecidableEq, Repr

/-- The `HashMap<GpioPath, Arc<LineHandle>>` cache, as an association
list; `cacheInsert` has the `HashMap::insert` replace-semantics. -/
def Cache := List (GpioPath × LineHandle)

def cacheLookup : Cache → GpioPath → Option LineHandle
  | [], _ => none
  | (q, h) :: rest, p => if q = p then some h else cacheLookup rest p

def cacheRemove : Cache → GpioPath → Cache
  | [], _ => []
  | (q, h) :: rest, p =>
      if q = p then cacheRemove rest p else (q, h) :: cacheRemove rest p

def cacheInsert (c : Cache) (p : GpioPath) (h : LineHandle) : Cache :=
  (p, h) :: cacheRemove c p

/-- Number of entries a cache holds for one key. -/
def countEntries : Cache → GpioPath → Nat
  | [], _ => 0
  | (q, _) :: rest, p =>
      (if q = p then 1 else 0) + countEntries rest p

/-- The map invariant: pairwise distinct keys. -/
def nodupKeys : Cache → Prop
  | [] => True
  | (q, _) :: rest => countEntries rest q = 0 ∧ nodupKeys rest

/-- An action, as `do_with_handle` receives it: a function from a line
handle to a result or a driver error, together with the trace of driver
calls it makes. -/
def Action (O : Type) := LineHandle → Except String O × List Event

/-- The slow path of `State::do_with_handle`, lines 95-112: open the
device at `/dev/{chip}`, get the line at the pin offset, request it with
the given flags, default value 0 and consumer `"http-gpio"`; any failure
is returned as-is. -/
def openFresh (d : Driver) (p : GpioPath) (flags : Direction) :
    Except String LineHandle × List Event :=
  match d.openChip ("/dev/" ++ p.chip) with
  | .error e => (.error e, [.openDevice ("/dev/" ++ p.chip)])
  | .ok _ =>
    match d.getLine p.chip p.pin with
    | .error e => (.error e, [.openDevice ("/dev/" ++ p.chip), .getLineEv p.pin])
    | .ok _ =>
      match d.requestLine p.chip p.pin flags 0 "http-gpio" with
      | .error e =>
          (.error e,
           [.openDevice ("/dev/" ++ p.chip), .getLineEv p.pin,
            .requestEv flags 0 "http-gpio"])
      | .ok h =>
          (.ok h,
           [.openDevice ("/dev/" ++ p.chip), .getLineEv p.pin,
            .requestEv flags 0 "http-gpio"])

/-- Result of one operation: the value or error returned to the caller,
the cache as the operation leaves it, and the event trace. -/
structure RunResult (O : Type) where
  res : Except String O
  cache : Cache
  events : List Event

/-- The exclusive section and retry, `do_with_handle` lines 94-112:
take the write lock, remove any stale entry, open a fresh handle
(failures propagate), insert it, release the lock, then run the action
against the fresh handle.  `attempt` numbers the action run in the trace
(2 when a cached attempt already failed, 1 when the pin was uncached). -/
def slowPath (d : Driver) (c : Cache) (p : GpioPath) (flags : Direction)
    (action : Action O) (attempt : Nat) : RunResult O :=
  match openFresh d p flags with
  | (.error e, oevs) =>
      ⟨.error e, cacheRemove c p,
       [.acquireExclusive, .removeEntry p] ++ oevs ++ [.releaseExclusive]⟩
  | (.ok h, oevs) =>
      let out := action h
      ⟨out.1, cacheInsert c p h,
       [.acquireExclusive, .removeEntry p] ++ oevs ++
         [.insertEntry p, .releaseExclusive, .runAction attempt] ++ out.2⟩

/-- Model of `State::do_with_handle`, lines 62-113: under the read lock, look the
pin up and try the action against the cached handle; on success return
immediately (still under the read lock); on failure, or when no entry
exists, release the read lock and fall to the slow path. -/
def do_with_handle (d : Driver) (c : Cache) (p : GpioPath) (flags : Direction)
    (action : Action O) : RunResult O :=
  match cacheLookup c p with
  | some h =>
    match action h with
    | (.ok v, aevs) =>
        ⟨.ok v, c, [.acquireShared, .runAction 1] ++ aevs ++ [.releaseShared]⟩
    | (.error _, aevs) =>
        let r := slowPath d c p flags action 2
        ⟨r.res, r.cache,
         [.acquireShared, .runAction 1] ++ aevs ++ [.releaseShared] ++ r.events⟩
  | none =>
      let r := slowPath d c p flags action 1
      ⟨r.res, r.cache, [.acquireShared, .releaseShared] ++ r.events⟩

/-- Model of `State::read`: the get-value action with `INPUT` flags. -/
def readPin (d : Driver) (c : Cache) (p : GpioPath) : RunResult Nat :=
  do_with_handle d c p .input (fun h => (d.getValue h, []))

/-- Model of `State::write`: the set-value action with `OUTPUT` flags. -/
def writePin (d : Driver) (c : Cache) (p : GpioPath) (v : Nat) : RunResult Unit :=
  do_with_handle d c p .output (fun h => (d.setValue h v, [.setValueEv p.pin v]))

/-- The loop body of `State::write_schedule`, lines 129-136: for each
duration, `set_value(value)`, then `value = value.bitxor(1)`, then sleep
the duration; finally return the (already flipped) `value`. -/
def scheduleLoop (d : Driver) (h : LineHandle) (pin : Nat) :
    List Nat → Nat → Except String Nat × List Event
  | [], value => (.ok value, [])
  | t :: rest, value =>
    match d.setValue h value with
    | .error e => (.error e, [.setValueEv pin value])
    | .ok _ =>
        let out := scheduleLoop d h pin rest (value ^^^ 1)
        (out.1, .setValueEv pin value :: .sleep t :: out.2)

/-- The total the log line of `write_schedule` (line 127) reports:
`schedule.iter().sum::<u16>()` — a `u16` sum, so reduced modulo 2^16. -/
def telemetrySum (schedule : List Nat) : Nat := schedule.sum % 65536

/-- Model of `State::write_schedule`: the toggle loop as the action, with
`OUTPUT` flags. -/
def write_schedule (d : Driver) (c : Cache) (p : GpioPath)
    (schedule : List Nat) : RunResult Nat :=
  do_with_handle d c p .output (fun h => scheduleLoop d h p.pin schedule 0)

/-- The test double of §8 of the design: every open step succeeds, and a
value access succeeds exactly when the handle's direction matches. -/
def nominalDriver : Driver where
  openChip := fun _ => .ok ()
  getLine := fun _ _ => .ok ()
  requestLine := fun _ _ flags _ _ => .ok ⟨0, flags⟩
  getValue := fun h => if h.dir = .input then .ok 0 else .error "wrong direction"
  setValue := fun h _ => if h.dir = .output then .ok () else .error "wrong direction"

/-- Values written to the pin, in order, as the trace records them. -/
def writesOf (evs : List Event) : List Nat :=
  evs.filterMap fun e =>
    match e with
    | .setValueEv _ v => some v
    | _ => none

/-- Sleep durations, in order. -/
def sleepsOf (evs : List Event) : List Nat :=
  evs.filterMap fun e =>
    match e with
    | .sleep ms => some ms
    | _ => none

/-- How many times the action was started. -/
def attemptsOf (evs : List Event) : Nat :=
  evs.countP fun e =>
    match e with
    | .runAction _ => true
    | _ => false

/-- How many devices were opened. -/
def opensOf (evs : List Event) : Nat :=
  evs.countP fun e =>
    match e with
    | .openDevice _ => true
    | _ => false

/-- How many times the exclusive (write) lock was taken. -/
def exclusiveAcqsOf (evs : List Event) : Nat :=
  evs.countP fun e =>
    match e with
    | .acquireExclusive => true
    | _ => false

/-- Whether the exclusive lock is held after a trace, starting from `b`. -/
def exclAfter : List Event → Bool → Bool
  | [], b => b
  | .acquireExclusive :: rest, _ => exclAfter rest true
  | .releaseExclusive :: rest, _ => exclAfter rest false
  | _ :: rest, b => exclAfter rest b

/-- Whether the shared lock is held after a trace, starting from `b`. -/
def sharedAfter : List Event → Bool → Bool
  | [], b => b
  | .acquireShared :: rest, _ => sharedAfter rest true
  | .releaseShared :: rest, _ => sharedAfter rest false
  | _ :: rest, b => sharedAfter rest b

/-- Milliseconds slept while the exclusive lock is held (`b`: held at
the start of the trace). -/
def sleepsExclAux : List Event → Bool → Nat
  | [], _ => 0
  | .acquireExclusive :: rest, _ => sleepsExclAux rest true
  | .releaseExclusive :: rest, _ => sleepsExclAux rest false
  | .sleep ms :: rest, b => (if b then ms else 0) + sleepsExclAux rest b
  | _ :: rest, b => sleepsExclAux rest b

def sleepsWhileExclusive (evs : List Event) : Nat := sleepsExclAux evs false

/-- Milliseconds slept while the shared lock is held. -/
def sleepsSharedAux : List Event → Bool → Nat
  | [], _ => 0
  | .acquireShared :: rest, _ => sleepsSharedAux rest true
  | .releaseShared :: rest, _ => sleepsSharedAux rest false
  | .sleep ms :: rest, b => (if b then ms else 0) + sleepsSharedAux rest b
  | _ :: rest, b => sleepsSharedAux rest b

def sleepsWhileShared (evs : List Event) : Nat := sleepsSharedAux evs false

/-- Whether some action attempt starts while the exclusive lock is held. -/
def actionExclAux : List Event → Bool → Bool
  | [], _ => false
  | .acquireExclusive :: rest, _ => actionExclAux rest true
  | .releaseExclusive :: rest, _ => actionExclAux rest false
  | .runAction _ :: rest, b => b || actionExclAux rest b
  | _ :: rest, b => actionExclAux rest b

def actionWhileExclusive (evs : List Event) : Bool := actionExclAux evs false

/-- The `std::sync::RwLock` semantics: `write()` blocks until every current
holder — shared or exclusive — releases.  The only time-consuming step of
the model is `sleep`, so the sleeps an operation performs inside a held
section are time the lock stays held against a concurrent exclusive
acquirer arriving at the start of that section. -/
def blocksExclusiveFor (evs : List Event) : Nat :=
  sleepsWhileShared evs + sleepsWhileExclusive evs

/-- Events that are neither lock transitions nor attempt markers: what an
action body or the driver open steps may emit. -/
def nonCtrl : Event → Bool
  | .acquireShared => false
  | .releaseShared => false
  | .acquireExclusive => false
  | .releaseExclusive => false
  | .runAction _ => false
  | _ => true

/-- Running a sequence of operations (each a pin, a direction flag and an
action) through the cache, threading the cache state. -/
def runOps (d : Driver) : Cache → List (GpioPath × Direction × Action Nat) → Cache
  | c, [] => c
  | c, (p, flags, a) :: rest => runOps d (do_with_handle d c p flags a).cache rest

/-- Runs `n` successive `read` calls on one pin, collecting results and the
final cache. -/
def runReads (d : Driver) (c : Cache) (p : GpioPath) :
    Nat → List (Except String Nat) × Cache
  | 0 => ([], c)
  | n + 1 =>
    let r := readPin d c p
    let out := runReads d r.cache p n
    (r.res :: out.1, out.2)

/-- Runs `n` successive `write` calls of value `v` on one pin. -/
def runWrites (d : Driver) (c : Cache) (p : GpioPath) (v : Nat) :
    Nat → List (Except String Unit) × Cache
  | 0 => ([], c)
  | n + 1 =>
    let r := writePin d c p v
    let out := runWrites d r.cache p v n
    (r.res :: out.1, out.2)

/-! Concrete fixtures used by witnesses and counterexamples. -/

def pinA : GpioPath := ⟨"gpiochip0", 1⟩

def pinB : GpioPath := ⟨"gpiochip0", 2⟩

def outHandle : LineHandle := ⟨7, .output⟩

def inHandle : LineHandle := ⟨7, .input⟩

/-- A driver whose device open fails. -/
def failingOpenDriver : Driver where
  openChip := fun _ => .error "no such device"
  getLine := fun _ _ => .ok ()
  requestLine := fun _ _ flags _ _ => .ok ⟨0, flags⟩
  getValue := fun _ => .ok 0
  setValue := fun _ _ => .ok ()

/-- A driver whose line lookup fails. -/
def failingLineDriver : Driver where
  openChip := fun _ => .ok ()
  getLine := fun _ _ => .error "offset out of range"
  requestLine := fun _ _ flags _ _ => .ok ⟨0, flags⟩
  getValue := fun _ => .ok 0
  setValue := fun _ _ => .ok ()

/-- A driver whose line request fails. -/
def failingRequestDriver : Driver where
  openChip := fun _ => .ok ()
  getLine := fun _ _ => .ok ()
  requestLine := fun _ _ _ _ _ => .error "line busy"
  getValue := fun _ => .ok 0
  setValue := fun _ _ => .ok ()

/-- A driver where opening works but every value access fails. -/
def brokenLineDriver : Driver where
  openChip := fun _ => .ok ()
  getLine := fun _ _ => .ok ()
  requestLine := fun _ _ flags _ _ => .ok ⟨0, flags⟩
  getValue := fun _ => .error "io error"
  setValue := fun _ _ => .error "io error"

/-- A driver where the cached handle fails its action and the reopen
itself fails at the device-open step. -/
def staleThenOpenFailDriver : Driver where
  openChip := fun _ => .error "no such device"
  getLine := fun _ _ => .ok ()
  requestLine := fun _ _ flags _ _ => .ok ⟨0, flags⟩
  getValue := fun _ => .error "io error"
  setValue := fun _ _ => .error "io error"

/-! ## Helper lemmas -/

theorem attemptsOf_append (xs ys : List Event) :
    attemptsOf (xs ++ ys) = attemptsOf xs + attemptsOf ys := by
  simp [attemptsOf, List.countP_append]

theorem opensOf_append (xs ys : List Event) :
    opensOf (xs ++ ys) = opensOf xs + opensOf ys := by
  simp [opensOf, List.countP_append]

theorem exclusiveAcqsOf_append (xs ys : List Event) :
    exclusiveAcqsOf (xs ++ ys) = exclusiveAcqsOf xs + exclusiveAcqsOf ys := by
  simp [exclusiveAcqsOf, List.countP_append]

theorem writesOf_append (xs ys : List Event) :
    writesOf (xs ++ ys) = writesOf xs ++ writesOf ys := by
  simp [writesOf, List.filterMap_append]

theorem sleepsOf_append (xs ys : List Event) :
    sleepsOf (xs ++ ys) = sleepsOf xs ++ sleepsOf ys := by
  simp [sleepsOf, List.filterMap_append]

theorem exclAfter_append (xs ys : List Event) (b : Bool) :
    exclAfter (xs ++ ys) b = exclAfter ys (exclAfter xs b) := by
  induction xs generalizing b with
  | nil => rfl
  | cons e rest ih => cases e <;> simp [exclAfter, ih]

theorem sleepsExclAux_append (xs ys : List Event) (b : Bool) :
    sleepsExclAux (xs ++ ys) b =
      sleepsExclAux xs b + sleepsExclAux ys (exclAfter xs b) := by
  induction xs generalizing b with
  | nil => simp [sleepsExclAux, exclAfter]
  | cons e rest ih =>
    cases e <;> simp [sleepsExclAux, exclAfter, ih] <;> omega

theorem sharedAfter_append (xs ys : List Event) (b : Bool) :
    sharedAfter (xs ++ ys) b = sharedAfter ys (sharedAfter xs b) := by
  induction xs generalizing b with
  | nil => rfl
  | cons e rest ih => cases e <;> simp [sharedAfter, ih]

theorem sleepsSharedAux_append (xs ys : List Event) (b : Bool) :
    sleepsSharedAux (xs ++ ys) b =
      sleepsSharedAux xs b + sleepsSharedAux ys (sharedAfter xs b) := by
  induction xs generalizing b with
  | nil => simp [sleepsSharedAux, sharedAfter]
  | cons e rest ih =>
    cases e <;> simp [sleepsSharedAux, sharedAfter, ih] <;> omega

theorem actionExclAux_append (xs ys : List Event) (b : Bool) :
    actionExclAux (xs ++ ys) b =
      (actionExclAux xs b || actionExclAux ys (exclAfter xs b)) := by
  induction xs generalizing b with
  | nil => simp [actionExclAux, exclAfter]
  | cons e rest ih =>
    cases e <;> simp [actionExclAux, exclAfter, ih] <;> simp [Bool.or_assoc]

theorem exclAfter_nonCtrl (xs : List Event) (b : Bool)
    (h : xs.all nonCtrl = true) : exclAfter xs b = b := by
  induction xs generalizing b with
  | nil => rfl
  | cons e rest ih =>
    rw [List.all_cons, Bool.and_eq_true] at h
    obtain ⟨h1, h2⟩ := h
    cases e <;> simp only [nonCtrl, Bool.false_eq_true] at h1 <;>
      simp [exclAfter, ih b h2]

theorem sharedAfter_nonCtrl (xs : List Event) (b : Bool)
    (h : xs.all nonCtrl = true) : sharedAfter xs b = b := by
  induction xs generalizing b with
  | nil => rfl
  | cons e rest ih =>
    rw [List.all_cons, Bool.and_eq_true] at h
    obtain ⟨h1, h2⟩ := h
    cases e <;> simp only [nonCtrl, Bool.false_eq_true] at h1 <;>
      simp [sharedAfter, ih b h2]

theorem sleepsExclAux_nonCtrl_false (xs : List Event)
    (h : xs.all nonCtrl = true) : sleepsExclAux xs false = 0 := by
  induction xs with
  | nil => rfl
  | cons e rest ih =>
    rw [List.all_cons, Bool.and_eq_true] at h
    obtain ⟨h1, h2⟩ := h
    cases e <;> simp only [nonCtrl, Bool.false_eq_true] at h1 <;>
      simp [sleepsExclAux, ih h2]

theorem sleepsSharedAux_nonCtrl_false (xs : List Event)
    (h : xs.all nonCtrl = true) : sleepsSharedAux xs false = 0 := by
  induction xs with
  | nil => rfl
  | cons e rest ih =>
    rw [List.all_cons, Bool.and_eq_true] at h
    obtain ⟨h1, h2⟩ := h
    cases e <;> simp only [nonCtrl, Bool.false_eq_true] at h1 <;>
      simp [sleepsSharedAux, ih h2]

theorem sleepsSharedAux_nonCtrl_true (xs : List Event)
    (h : xs.all nonCtrl = true) :
    sleepsSharedAux xs true = (sleepsOf xs).sum := by
  induction xs with
  | nil => rfl
  | cons e rest ih =>
    rw [List.all_cons, Bool.and_eq_true] at h
    obtain ⟨h1, h2⟩ := h
    cases e <;> simp only [nonCtrl, Bool.false_eq_true] at h1 <;>
      simp [sleepsSharedAux, sleepsOf, ih h2]

theorem actionExclAux_nonCtrl (xs : List Event) (b : Bool)
    (h : xs.all nonCtrl = true) : actionExclAux xs b = false := by
  induction xs generalizing b with
  | nil => rfl
  | cons e rest ih =>
    rw [List.all_cons, Bool.and_eq_true] at h
    obtain ⟨h1, h2⟩ := h
    cases e <;> simp only [nonCtrl, Bool.false_eq_true] at h1 <;>
      simp [actionExclAux, ih b h2]

theorem attemptsOf_nonCtrl (xs : List Event)
    (h : xs.all nonCtrl = true) : attemptsOf xs = 0 := by
  induction xs with
  | nil => rfl
  | cons e rest ih =>
    rw [List.all_cons, Bool.and_eq_true] at h
    obtain ⟨h1, h2⟩ := h
    have hr := ih h2
    cases e <;> simp only [nonCtrl, Bool.false_eq_true] at h1 <;>
      simpa [attemptsOf, List.countP_cons] using hr

theorem xorShift (v n : Nat) (hv : v < 2) :
    ((v ^^^ 1) + n) % 2 = (v + (n + 1)) % 2 := by
  interval_cases v
  · rw [show (0 ^^^ 1 : Nat) = 1 by decide]; omega
  · rw [show (1 ^^^ 1 : Nat) = 0 by decide]; omega

theorem scheduleLoop_nonCtrl (d : Driver) (h : LineHandle) (pin : Nat)
    (sched : List Nat) (v : Nat) :
    ((scheduleLoop d h pin sched v).2).all nonCtrl = true := by
  induction sched generalizing v with
  | nil => rfl
  | cons t rest ih =>
    cases hs : d.setValue h v with
    | error e => simp [scheduleLoop, hs, nonCtrl]
    | ok u => simp [scheduleLoop, hs, nonCtrl, ih]

/-- The toggle loop, when every write succeeds: starting from `v < 2` it
writes `v, v^1, v^1^1, …` (the `i`-th write is `(v+i) % 2`), sleeps each
duration in order, and returns the flip of the last written value,
`(v + length) % 2`. -/
theorem scheduleLoop_spec (d : Driver) (h : LineHandle) (pin : Nat)
    (hset : ∀ val, val < 2 → d.setValue h val = .ok ()) :
    ∀ (sched : List Nat) (v : Nat), v < 2 →
      (scheduleLoop d h pin sched v).1 = .ok ((v + sched.length) % 2) ∧
      writesOf (scheduleLoop d h pin sched v).2 =
        (List.range sched.length).map (fun i => (v + i) % 2) ∧
      sleepsOf (scheduleLoop d h pin sched v).2 = sched := by
  intro sched
  induction sched with
  | nil =>
    intro v hv
    refine ⟨?_, rfl, rfl⟩
    simp [scheduleLoop, Nat.mod_eq_of_lt hv]
  | cons t rest ih =>
    intro v hv
    have hv1 : v ^^^ 1 < 2 := by interval_cases v <;> decide
    obtain ⟨e1, e2, e3⟩ := ih (v ^^^ 1) hv1
    refine ⟨?_, ?_, ?_⟩
    · rw [show (scheduleLoop d h pin (t :: rest) v).1 =
          (scheduleLoop d h pin rest (v ^^^ 1)).1 by
            simp [scheduleLoop, hset v hv]]
      rw [e1, List.length_cons, xorShift v rest.length hv]
    · rw [show writesOf (scheduleLoop d h pin (t :: rest) v).2 =
          v :: writesOf (scheduleLoop d h pin rest (v ^^^ 1)).2 by
            simp [scheduleLoop, hset v hv, writesOf]]
      rw [e2, List.length_cons, List.range_succ_eq_map, List.map_cons,
        List.map_map]
      refine congrArg₂ _ (by simpa using (Nat.mod_eq_of_lt hv).symm) ?_
      exact List.map_congr_left fun i _ => xorShift v i hv
    · rw [show sleepsOf (scheduleLoop d h pin (t :: rest) v).2 =
          t :: sleepsOf (scheduleLoop d h pin rest (v ^^^ 1)).2 by
            simp [scheduleLoop, hset v hv, sleepsOf]]
      rw [e3]

theorem openFresh_nonCtrl (d : Driver) (p : GpioPath) (flags : Direction) :
    ((openFresh d p flags).2).all nonCtrl = true := by
  unfold openFresh
  cases d.openChip ("/dev/" ++ p.chip) with
  | error e => simp [nonCtrl]
  | ok u =>
    cases d.getLine p.chip p.pin with
    | error e => simp [nonCtrl]
    | ok u2 =>
      cases d.requestLine p.chip p.pin flags 0 "http-gpio" with
      | error e => simp [nonCtrl]
      | ok h => simp [nonCtrl]

theorem openFresh_writesOf (d : Driver) (p : GpioPath) (flags : Direction) :
    writesOf (openFresh d p flags).2 = [] := by
  unfold openFresh
  cases d.openChip ("/dev/" ++ p.chip) with
  | error e => simp [writesOf]
  | ok u =>
    cases d.getLine p.chip p.pin with
    | error e => simp [writesOf]
    | ok u2 =>
      cases d.requestLine p.chip p.pin flags 0 "http-gpio" with
      | error e => simp [writesOf]
      | ok h => simp [writesOf]

theorem openFresh_sleepsOf (d : Driver) (p : GpioPath) (flags : Direction) :
    sleepsOf (openFresh d p flags).2 = [] := by
  unfold openFresh
  cases d.openChip ("/dev/" ++ p.chip) with
  | error e => simp [sleepsOf]
  | ok u =>
    cases d.getLine p.chip p.pin with
    | error e => simp [sleepsOf]
    | ok u2 =>
      cases d.requestLine p.chip p.pin flags 0 "http-gpio" with
      | error e => simp [sleepsOf]
      | ok h => simp [sleepsOf]

/-! Cache (association map) lemmas. -/

theorem countEntries_cacheRemove_self (c : Cache) (p : GpioPath) :
    countEntries (cacheRemove c p) p = 0 := by
  induction c with
  | nil => rfl
  | cons qh rest ih =>
    obtain ⟨q, h⟩ := qh
    by_cases hq : q = p <;> simp [cacheRemove, hq, countEntries, ih]

theorem countEntries_cacheRemove_ne (c : Cache) (p q : GpioPath) (hpq : q ≠ p) :
    countEntries (cacheRemove c p) q = countEntries c q := by
  induction c with
  | nil => rfl
  | cons rh rest ih =>
    obtain ⟨r, h⟩ := rh
    by_cases hr : r = p
    · subst hr
      have hrq : ¬ r = q := fun hh => hpq hh.symm
      simp [cacheRemove, countEntries, ih, hrq]
    · simp [cacheRemove, hr, countEntries, ih]

theorem cacheLookup_cacheRemove_self (c : Cache) (p : GpioPath) :
    cacheLookup (cacheRemove c p) p = none := by
  induction c with
  | nil => rfl
  | cons qh rest ih =>
    obtain ⟨q, h⟩ := qh
    by_cases hq : q = p <;> simp [cacheRemove, hq, cacheLookup, ih]

theorem cacheLookup_cacheRemove_ne (c : Cache) (p q : GpioPath) (hpq : q ≠ p) :
    cacheLookup (cacheRemove c p) q = cacheLookup c q := by
  induction c with
  | nil => rfl
  | cons rh rest ih =>
    obtain ⟨r, h⟩ := rh
    by_cases hr : r = p
    · subst hr
      have hrq : ¬ r = q := fun hh => hpq hh.symm
      simp [cacheRemove, cacheLookup, ih, hrq]
    · simp [cacheRemove, hr, cacheLookup, ih]

theorem cacheLookup_cacheInsert_self (c : Cache) (p : GpioPath) (h : LineHandle) :
    cacheLookup (cacheInsert c p h) p = some h := by
  simp [cacheInsert, cacheLookup]

theorem cacheLookup_cacheInsert_ne (c : Cache) (p q : GpioPath) (h : LineHandle)
    (hpq : q ≠ p) :
    cacheLookup (cacheInsert c p h) q = cacheLookup c q := by
  have hpq' : ¬ p = q := fun hh => hpq hh.symm
  simp [cacheInsert, cacheLookup, hpq', cacheLookup_cacheRemove_ne c p q hpq]

theorem countEntries_cacheInsert_self (c : Cache) (p : GpioPath) (h : LineHandle) :
    countEntries (cacheInsert c p h) p = 1 := by
  simp [cacheInsert, countEntries, countEntries_cacheRemove_self]

theorem nodupKeys_cacheRemove (c : Cache) (p : GpioPath) (hc : nodupKeys c) :
    nodupKeys (cacheRemove c p) := by
  induction c with
  | nil => trivial
  | cons qh rest ih =>
    obtain ⟨q, h⟩ := qh
    obtain ⟨h1, h2⟩ := hc
    by_cases hq : q = p
    · simpa [cacheRemove, hq] using ih h2
    · have hcons : nodupKeys ((q, h) :: cacheRemove rest p) :=
        ⟨by rw [countEntries_cacheRemove_ne rest p q hq]; exact h1, ih h2⟩
      simpa [cacheRemove, hq] using hcons

theorem nodupKeys_cacheInsert (c : Cache) (p : GpioPath) (h : LineHandle)
    (hc : nodupKeys c) : nodupKeys (cacheInsert c p h) :=
  ⟨countEntries_cacheRemove_self c p, nodupKeys_cacheRemove c p hc⟩

theorem countEntries_le_one (c : Cache) (hc : nodupKeys c) (q : GpioPath) :
    countEntries c q ≤ 1 := by
  induction c with
  | nil => simp [countEntries]
  | cons rh rest ih =>
    obtain ⟨r, h⟩ := rh
    obtain ⟨h1, h2⟩ := hc
    by_cases hr : r = q
    · subst hr; simp [countEntries, h1]
    · simp [countEntries, hr]; exact ih h2

/-! Path characterizations of `do_with_handle`. -/

theorem dwh_fast_ok {O : Type} (d : Driver) (c : Cache) (p : GpioPath)
    (flags : Direction) (a : Action O) (h : LineHandle) (v : O)
    (aevs : List Event) (hcl : cacheLookup c p = some h)
    (ha : a h = (.ok v, aevs)) :
    do_with_handle d c p flags a =
      ⟨.ok v, c, [.acquireShared, .runAction 1] ++ aevs ++ [.releaseShared]⟩ := by
  simp [do_with_handle, hcl, ha]

theorem dwh_fail_openfail {O : Type} (d : Driver) (c : Cache) (p : GpioPath)
    (flags : Direction) (a : Action O) (h : LineHandle) (e1 e : String)
    (aevs oevs : List Event) (hcl : cacheLookup c p = some h)
    (ha : a h = (.error e1, aevs))
    (hof : openFresh d p flags = (.error e, oevs)) :
    do_with_handle d c p flags a =
      ⟨.error e, cacheRemove c p,
       [.acquireShared, .runAction 1] ++ aevs ++ [.releaseShared] ++
         ([.acquireExclusive, .removeEntry p] ++ oevs ++ [.releaseExclusive])⟩ := by
  simp [do_with_handle, slowPath, hcl, ha, hof]

theorem dwh_fail_openok {O : Type} (d : Driver) (c : Cache) (p : GpioPath)
    (flags : Direction) (a : Action O) (h h2 : LineHandle) (e1 : String)
    (aevs oevs : List Event) (hcl : cacheLookup c p = some h)
    (ha : a h = (.error e1, aevs))
    (hof : openFresh d p flags = (.ok h2, oevs)) :
    do_with_handle d c p flags a =
      ⟨(a h2).1, cacheInsert c p h2,
       [.acquireShared, .runAction 1] ++ aevs ++ [.releaseShared] ++
         ([.acquireExclusive, .removeEntry p] ++ oevs ++
           [.insertEntry p, .releaseExclusive, .runAction 2] ++ (a h2).2)⟩ := by
  simp [do_with_handle, slowPath, hcl, ha, hof]

theorem dwh_none_openfail {O : Type} (d : Driver) (c : Cache) (p : GpioPath)
    (flags : Direction) (a : Action O) (e : String) (oevs : List Event)
    (hcl : cacheLookup c p = none)
    (hof : openFresh d p flags = (.error e, oevs)) :
    do_with_handle d c p flags a =
      ⟨.error e, cacheRemove c p,
       [.acquireShared, .releaseShared] ++
         ([.acquireExclusive, .removeEntry p] ++ oevs ++ [.releaseExclusive])⟩ := by
  simp [do_with_handle, slowPath, hcl, hof]

theorem dwh_none_openok {O : Type} (d : Driver) (c : Cache) (p : GpioPath)
    (flags : Direction) (a : Action O) (h2 : LineHandle) (oevs : List Event)
    (hcl : cacheLookup c p = none)
    (hof : openFresh d p flags = (.ok h2, oevs)) :
    do_with_handle d c p flags a =
      ⟨(a h2).1, cacheInsert c p h2,
       [.acquireShared, .releaseShared] ++
         ([.acquireExclusive, .removeEntry p] ++ oevs ++
           [.insertEntry p, .releaseExclusive, .runAction 1] ++ (a h2).2)⟩ := by
  simp [do_with_handle, slowPath, hcl, hof]

theorem dwh_cache_cases {O : Type} (d : Driver) (c : Cache) (p : GpioPath)
    (flags : Direction) (a : Action O) :
    (do_with_handle d c p flags a).cache = c ∨
    (do_with_handle d c p flags a).cache = cacheRemove c p ∨
    ∃ h, (do_with_handle d c p flags a).cache = cacheInsert c p h := by
  rcases hcl : cacheLookup c p with _ | h0
  · rcases hof : openFresh d p flags with ⟨r, oevs⟩
    rcases r with e | hh
    · right; left
      rw [dwh_none_openfail d c p flags a e oevs hcl hof]
    · right; right
      exact ⟨hh, by rw [dwh_none_openok d c p flags a hh oevs hcl hof]⟩
  · rcases ha : a h0 with ⟨r1, aevs⟩
    rcases r1 with e | v
    · rcases hof : openFresh d p flags with ⟨r, oevs⟩
      rcases r with e2 | hh
      · right; left
        rw [dwh_fail_openfail d c p flags a h0 e e2 aevs oevs hcl ha hof]
      · right; right
        exact ⟨hh, by rw [dwh_fail_openok d c p flags a h0 hh e aevs oevs hcl ha hof]⟩
    · left
      rw [dwh_fast_ok d c p flags a h0 v aevs hcl ha]

theorem nodupKeys_dwh {O : Type} (d : Driver) (c : Cache) (p : GpioPath)
    (flags : Direction) (a : Action O) (hc : nodupKeys c) :
    nodupKeys (do_with_handle d c p flags a).cache := by
  rcases dwh_cache_cases d c p flags a with h | h | ⟨hh, h⟩ <;> rw [h]
  · exact hc
  · exact nodupKeys_cacheRemove c p hc
  · exact nodupKeys_cacheInsert c p hh hc

theorem nodupKeys_runOps (d : Driver) (ops : List (GpioPath × Direction × Action Nat))
    (c : Cache) (hc : nodupKeys c) : nodupKeys (runOps d c ops) := by
  induction ops generalizing c with
  | nil => exact hc
  | cons op rest ih =>
    obtain ⟨p, flags, a⟩ := op
    exact ih _ (nodupKeys_dwh d c p flags a hc)

theorem sleepsExclAux_no_sleep (xs : List Event) (b : Bool)
    (hctrl : xs.all nonCtrl = true) (hs : sleepsOf xs = []) :
    sleepsExclAux xs b = 0 := by
  induction xs generalizing b with
  | nil => rfl
  | cons e rest ih =>
    rw [List.all_cons, Bool.and_eq_true] at hctrl
    obtain ⟨h1, h2⟩ := hctrl
    cases e <;> simp only [nonCtrl, Bool.false_eq_true] at h1
    case sleep ms => exact absurd hs (by simp [sleepsOf])
    all_goals exact ih b h2 hs

theorem sleepsSharedAux_no_sleep (xs : List Event) (b : Bool)
    (hctrl : xs.all nonCtrl = true) (hs : sleepsOf xs = []) :
    sleepsSharedAux xs b = 0 := by
  induction xs generalizing b with
  | nil => rfl
  | cons e rest ih =>
    rw [List.all_cons, Bool.and_eq_true] at hctrl
    obtain ⟨h1, h2⟩ := hctrl
    cases e <;> simp only [nonCtrl, Bool.false_eq_true] at h1
    case sleep ms => exact absurd hs (by simp [sleepsOf])
    all_goals exact ih b h2 hs

theorem opensOf_openFresh (d : Driver) (p : GpioPath) (flags : Direction) :
    opensOf (openFresh d p flags).2 = 1 := by
  unfold openFresh
  cases d.openChip ("/dev/" ++ p.chip) with
  | error e => simp [opensOf]
  | ok u =>
    cases d.getLine p.chip p.pin with
    | error e => simp [opensOf]
    | ok u2 =>
      cases d.requestLine p.chip p.pin flags 0 "http-gpio" with
      | error e => simp [opensOf]
      | ok h => simp [opensOf]

theorem getLast_map_range_mod (n : Nat) (hn : 1 ≤ n) :
    ((List.range n).map (fun i => i % 2)).getLast? = some ((n - 1) % 2) := by
  obtain ⟨m, rfl⟩ : ∃ m, n = m + 1 := ⟨n - 1, by omega⟩
  rw [List.range_succ, List.map_append]
  simp

/-! ## Claim theorems -/

/-- C9 counterexample: the reported blink total is a `u16` sum, so for the
schedule `[65535, 1]` (both entries valid `u16` durations) it reports 0,
not the exact arithmetic sum 65536. -/
theorem C9_cex :
    telemetrySum [65535, 1] = 0 ∧ List.sum [65535, 1] = 65536 ∧
    (0 : Nat) ≠ 65536 := by
  refine ⟨rfl, rfl, by omega⟩

/-- C9 (amended): the total `write_schedule` computes for its log line is
the sum of the durations reduced modulo 2^16 (`u16` wrapping arithmetic);
it equals the exact arithmetic sum exactly when that sum is below 65536. -/
theorem C9_telemetry_total (sched : List Nat) :
    telemetrySum sched = sched.sum % 65536 ∧
    (telemetrySum sched = sched.sum ↔ sched.sum < 65536) := by
  refine ⟨rfl, ?_⟩
  unfold telemetrySum
  omega

/-- C9 witness: at the schedule [100, 50, 200] the reported total is the
exact sum 350. -/
theorem C9_telemetry_total_witness :
    telemetrySum [100, 50, 200] = List.sum [100, 50, 200] % 65536 ∧
    (telemetrySum [100, 50, 200] = List.sum [100, 50, 200] ↔
      List.sum [100, 50, 200] < 65536) :=
  C9_telemetry_total [100, 50, 200]

/-- C10: an operation that reaches the reopen path (no cached entry, or
the cached attempt failed) and whose fresh open fails returns that error,
and the pin's previous cache entry is gone: the removal under the
exclusive lock happened before the open was attempted. -/
theorem C10_failed_reopen_leaves_no_entry {O : Type} (d : Driver) (c : Cache)
    (p : GpioPath) (flags : Direction) (a : Action O) (e : String)
    (oevs : List Event)
    (hfirst : cacheLookup c p = none ∨
      ∃ h e1 aevs, cacheLookup c p = some h ∧ a h = (.error e1, aevs))
    (hof : openFresh d p flags = (.error e, oevs)) :
    (do_with_handle d c p flags a).res = .error e ∧
    cacheLookup (do_with_handle d c p flags a).cache p = none := by
  rcases hfirst with hcl | ⟨h, e1, aevs, hcl, ha⟩
  · rw [dwh_none_openfail d c p flags a e oevs hcl hof]
    exact ⟨rfl, cacheLookup_cacheRemove_self c p⟩
  · rw [dwh_fail_openfail d c p flags a h e1 e aevs oevs hcl ha hof]
    exact ⟨rfl, cacheLookup_cacheRemove_self c p⟩

/-- C10 witness: a pin cached as output whose write fails, against a
driver whose reopen fails at the device-open step: the call errors and
the cache entry for the pin is gone. -/
theorem C10_failed_reopen_leaves_no_entry_witness :
    (do_with_handle staleThenOpenFailDriver [(pinA, outHandle)] pinA .output
        (fun h => (staleThenOpenFailDriver.setValue h 1, [.setValueEv pinA.pin 1]))).res =
      .error "no such device" ∧
    cacheLookup (do_with_handle staleThenOpenFailDriver [(pinA, outHandle)] pinA
        .output
        (fun h => (staleThenOpenFailDriver.setValue h 1, [.setValueEv pinA.pin 1]))).cache
      pinA = none :=
  C10_failed_reopen_leaves_no_entry staleThenOpenFailDriver [(pinA, outHandle)]
    pinA .output _ "no such device" [.openDevice ("/dev/" ++ pinA.chip)]
    (Or.inr ⟨outHandle, "io error", [.setValueEv pinA.pin 1], by decide, rfl⟩)
    rfl

/-- C7: opening a fresh handle performs, in order, the device open at
`/dev/{controller}`, the line lookup at the pin's offset, and the line
request with the operation's direction flag, default value 0 and the
fixed consumer label `"http-gpio"`; a failure at any step is returned as
the call's error, and read requests input while write and run_schedule
request output. -/
theorem C7_open_order_and_flags (d : Driver) (p : GpioPath) (flags : Direction) :
    (∀ e, d.openChip ("/dev/" ++ p.chip) = .error e →
      openFresh d p flags = (.error e, [.openDevice ("/dev/" ++ p.chip)])) ∧
    (∀ e, d.openChip ("/dev/" ++ p.chip) = .ok () →
      d.getLine p.chip p.pin = .error e →
      openFresh d p flags =
        (.error e, [.openDevice ("/dev/" ++ p.chip), .getLineEv p.pin])) ∧
    (∀ e, d.openChip ("/dev/" ++ p.chip) = .ok () →
      d.getLine p.chip p.pin = .ok () →
      d.requestLine p.chip p.pin flags 0 "http-gpio" = .error e →
      openFresh d p flags =
        (.error e, [.openDevice ("/dev/" ++ p.chip), .getLineEv p.pin,
          .requestEv flags 0 "http-gpio"])) ∧
    (∀ h, d.openChip ("/dev/" ++ p.chip) = .ok () →
      d.getLine p.chip p.pin = .ok () →
      d.requestLine p.chip p.pin flags 0 "http-gpio" = .ok h →
      openFresh d p flags =
        (.ok h, [.openDevice ("/dev/" ++ p.chip), .getLineEv p.pin,
          .requestEv flags 0 "http-gpio"])) ∧
    (∀ c e oevs, cacheLookup c p = none →
      (openFresh d p .input = (.error e, oevs) → (readPin d c p).res = .error e) ∧
      (∀ v, openFresh d p .output = (.error e, oevs) →
        (writePin d c p v).res = .error e) ∧
      (∀ sched, openFresh d p .output = (.error e, oevs) →
        (write_schedule d c p sched).res = .error e)) ∧
    (∀ c h2 oevs, cacheLookup c p = none →
      (openFresh d p .input = (.ok h2, oevs) →
        Event.requestEv .input 0 "http-gpio" ∈ (readPin d c p).events) ∧
      (∀ v, openFresh d p .output = (.ok h2, oevs) →
        Event.requestEv .output 0 "http-gpio" ∈ (writePin d c p v).events) ∧
      (∀ sched, openFresh d p .output = (.ok h2, oevs) →
        Event.requestEv .output 0 "http-gpio" ∈
          (write_schedule d c p sched).events)) := by
  have hofe : ∀ fl (e : String) oevs, openFresh d p fl = (.error e, oevs) →
      oevs = (openFresh d p fl).2 := fun fl e oevs hh => by rw [hh]
  refine ⟨?_, ?_, ?_, ?_, ?_, ?_⟩
  · intro e he; unfold openFresh; rw [he]
  · intro e hoc hgl; unfold openFresh; rw [hoc, hgl]
  · intro e hoc hgl hrq; unfold openFresh; rw [hoc, hgl, hrq]
  · intro h hoc hgl hrq; unfold openFresh; rw [hoc, hgl, hrq]
  · intro c e oevs hcl
    refine ⟨?_, ?_, ?_⟩
    · intro hof
      rw [readPin, dwh_none_openfail d c p .input _ e oevs hcl hof]
    · intro v hof
      rw [writePin, dwh_none_openfail d c p .output _ e oevs hcl hof]
    · intro sched hof
      rw [write_schedule, dwh_none_openfail d c p .output _ e oevs hcl hof]
  · intro c h2 oevs hcl
    have hmem : ∀ fl, openFresh d p fl = (.ok h2, oevs) →
        Event.requestEv fl 0 "http-gpio" ∈ oevs := by
      intro fl hof
      unfold openFresh at hof
      cases hoc : d.openChip ("/dev/" ++ p.chip) with
      | error e => rw [hoc] at hof; simp at hof
      | ok u =>
        rw [hoc] at hof
        cases hgl : d.getLine p.chip p.pin with
        | error e => rw [hgl] at hof; simp at hof
        | ok u2 =>
          rw [hgl] at hof
          cases hrq : d.requestLine p.chip p.pin fl 0 "http-gpio" with
          | error e => rw [hrq] at hof; simp at hof
          | ok hh =>
            rw [hrq] at hof
            obtain ⟨-, rfl⟩ := Prod.mk.injEq .. ▸ hof
            simp
    refine ⟨?_, ?_, ?_⟩
    · intro hof
      have hm := hmem .input hof
      rw [readPin, dwh_none_openok d c p .input _ h2 oevs hcl hof]
      simp [List.mem_append, hm]
    · intro v hof
      have hm := hmem .output hof
      rw [writePin, dwh_none_openok d c p .output _ h2 oevs hcl hof]
      simp [List.mem_append, hm]
    · intro sched hof
      have hm := hmem .output hof
      rw [write_schedule, dwh_none_openok d c p .output _ h2 oevs hcl hof]
      simp [List.mem_append, hm]

/-- C7 witness: a failing device open is returned as the call's error with
only the open step performed, and an uncached blink requests the line for
output with default value 0 and consumer label http-gpio. -/
theorem C7_open_order_and_flags_witness :
    openFresh failingOpenDriver pinA .input =
      (.error "no such device", [.openDevice ("/dev/" ++ pinA.chip)]) ∧
    Event.requestEv .output 0 "http-gpio" ∈
      (write_schedule nominalDriver [] pinA [100]).events := by
  constructor
  · exact (C7_open_order_and_flags failingOpenDriver pinA .input).1 "no such device" rfl
  · exact ((C7_open_order_and_flags nominalDriver pinA .output).2.2.2.2.2 []
      ⟨0, .output⟩
      [.openDevice ("/dev/" ++ pinA.chip), .getLineEv pinA.pin,
        .requestEv .output 0 "http-gpio"] rfl).2.2 [100] rfl

theorem requestEv_mem_openFresh_ok (d : Driver) (p : GpioPath) (fl : Direction)
    (h2 : LineHandle) (oevs : List Event)
    (hof : openFresh d p fl = (.ok h2, oevs)) :
    Event.requestEv fl 0 "http-gpio" ∈ oevs := by
  unfold openFresh at hof
  cases hoc : d.openChip ("/dev/" ++ p.chip) with
  | error e => rw [hoc] at hof; simp at hof
  | ok u =>
    rw [hoc] at hof
    cases hgl : d.getLine p.chip p.pin with
    | error e => rw [hgl] at hof; simp at hof
    | ok u2 =>
      rw [hgl] at hof
      cases hrq : d.requestLine p.chip p.pin fl 0 "http-gpio" with
      | error e => rw [hrq] at hof; simp at hof
      | ok hh =>
        rw [hrq] at hof
        obtain ⟨-, rfl⟩ := Prod.mk.injEq .. ▸ hof
        simp

theorem attemptsOf_nil : attemptsOf [] = 0 := rfl

theorem attemptsOf_cons_aS (xs : List Event) :
    attemptsOf (Event.acquireShared :: xs) = attemptsOf xs := by
  simp [attemptsOf, List.countP_cons]

theorem attemptsOf_cons_rS (xs : List Event) :
    attemptsOf (Event.releaseShared :: xs) = attemptsOf xs := by
  simp [attemptsOf, List.countP_cons]

theorem attemptsOf_cons_aE (xs : List Event) :
    attemptsOf (Event.acquireExclusive :: xs) = attemptsOf xs := by
  simp [attemptsOf, List.countP_cons]

theorem attemptsOf_cons_rE (xs : List Event) :
    attemptsOf (Event.releaseExclusive :: xs) = attemptsOf xs := by
  simp [attemptsOf, List.countP_cons]

theorem attemptsOf_cons_rm (p : GpioPath) (xs : List Event) :
    attemptsOf (Event.removeEntry p :: xs) = attemptsOf xs := by
  simp [attemptsOf, List.countP_cons]

theorem attemptsOf_cons_ins (p : GpioPath) (xs : List Event) :
    attemptsOf (Event.insertEntry p :: xs) = attemptsOf xs := by
  simp [attemptsOf, List.countP_cons]

theorem attemptsOf_cons_run (n : Nat) (xs : List Event) :
    attemptsOf (Event.runAction n :: xs) = attemptsOf xs + 1 := by
  simp [attemptsOf, List.countP_cons]

theorem attemptsOf_dwh_le_two {O : Type} (d : Driver) (c : Cache) (p : GpioPath)
    (flags : Direction) (a : Action O)
    (hclean : ∀ h, ((a h).2).all nonCtrl = true) :
    attemptsOf (do_with_handle d c p flags a).events ≤ 2 := by
  have hoevs := attemptsOf_nonCtrl _ (openFresh_nonCtrl d p flags)
  have haevs : ∀ h, attemptsOf (a h).2 = 0 :=
    fun h => attemptsOf_nonCtrl _ (hclean h)
  rcases hcl : cacheLookup c p with _ | h0
  · rcases hof : openFresh d p flags with ⟨r, oevs⟩
    have ho2 : attemptsOf oevs = 0 := by rw [hof] at hoevs; exact hoevs
    rcases r with e | h2
    · rw [dwh_none_openfail d c p flags a e oevs hcl hof]
      simp [attemptsOf_append, attemptsOf_nil, attemptsOf_cons_aS, attemptsOf_cons_rS,
        attemptsOf_cons_aE, attemptsOf_cons_rE, attemptsOf_cons_rm,
        attemptsOf_cons_ins, attemptsOf_cons_run, ho2]
    · rw [dwh_none_openok d c p flags a h2 oevs hcl hof]
      simp [attemptsOf_append, attemptsOf_nil, attemptsOf_cons_aS, attemptsOf_cons_rS,
        attemptsOf_cons_aE, attemptsOf_cons_rE, attemptsOf_cons_rm,
        attemptsOf_cons_ins, attemptsOf_cons_run, ho2, haevs h2]
  · rcases ha : a h0 with ⟨r1, aevs⟩
    have ha2 : attemptsOf aevs = 0 := by
      have hh := haevs h0; rw [ha] at hh; exact hh
    rcases r1 with e1 | v
    · rcases hof : openFresh d p flags with ⟨r, oevs⟩
      have ho2 : attemptsOf oevs = 0 := by rw [hof] at hoevs; exact hoevs
      rcases r with e | h2
      · rw [dwh_fail_openfail d c p flags a h0 e1 e aevs oevs hcl ha hof]
        simp [attemptsOf_append, attemptsOf_nil, attemptsOf_cons_aS, attemptsOf_cons_rS,
        attemptsOf_cons_aE, attemptsOf_cons_rE, attemptsOf_cons_rm,
        attemptsOf_cons_ins, attemptsOf_cons_run, ho2, ha2]
      · rw [dwh_fail_openok d c p flags a h0 h2 e1 aevs oevs hcl ha hof]
        simp [attemptsOf_append, attemptsOf_nil, attemptsOf_cons_aS, attemptsOf_cons_rS,
        attemptsOf_cons_aE, attemptsOf_cons_rE, attemptsOf_cons_rm,
        attemptsOf_cons_ins, attemptsOf_cons_run, ho2, ha2, haevs h2]
    · rw [dwh_fast_ok d c p flags a h0 v aevs hcl ha]
      simp [attemptsOf_append, attemptsOf_nil, attemptsOf_cons_aS, attemptsOf_cons_rS,
        attemptsOf_cons_aE, attemptsOf_cons_rE, attemptsOf_cons_rm,
        attemptsOf_cons_ins, attemptsOf_cons_run, ha2]

theorem dwh_retry_exact {O : Type} (d : Driver) (c : Cache) (p : GpioPath)
    (flags : Direction) (a : Action O)
    (hclean : ∀ h, ((a h).2).all nonCtrl = true)
    (h : LineHandle) (e1 : String) (aevs : List Event)
    (hcl : cacheLookup c p = some h) (ha : a h = (.error e1, aevs)) :
    (∀ e oevs, openFresh d p flags = (.error e, oevs) →
      (do_with_handle d c p flags a).res = .error e ∧
      attemptsOf (do_with_handle d c p flags a).events = 1) ∧
    (∀ h2 oevs, openFresh d p flags = (.ok h2, oevs) →
      (do_with_handle d c p flags a).res = (a h2).1 ∧
      attemptsOf (do_with_handle d c p flags a).events = 2) := by
  have hoevs := attemptsOf_nonCtrl _ (openFresh_nonCtrl d p flags)
  have ha2 : attemptsOf aevs = 0 := by
    have hh := attemptsOf_nonCtrl _ (hclean h); rw [ha] at hh; exact hh
  constructor
  · intro e oevs hof
    have ho2 : attemptsOf oevs = 0 := by rw [hof] at hoevs; exact hoevs
    rw [dwh_fail_openfail d c p flags a h e1 e aevs oevs hcl ha hof]
    refine ⟨rfl, ?_⟩
    simp [attemptsOf_append, attemptsOf_nil, attemptsOf_cons_aS, attemptsOf_cons_rS,
        attemptsOf_cons_aE, attemptsOf_cons_rE, attemptsOf_cons_rm,
        attemptsOf_cons_ins, attemptsOf_cons_run, ho2, ha2]
  · intro h2 oevs hof
    have ho2 : attemptsOf oevs = 0 := by rw [hof] at hoevs; exact hoevs
    have ha3 : attemptsOf (a h2).2 = 0 := attemptsOf_nonCtrl _ (hclean h2)
    rw [dwh_fail_openok d c p flags a h h2 e1 aevs oevs hcl ha hof]
    refine ⟨rfl, ?_⟩
    simp [attemptsOf_append, attemptsOf_nil, attemptsOf_cons_aS, attemptsOf_cons_rS,
        attemptsOf_cons_aE, attemptsOf_cons_rE, attemptsOf_cons_rm,
        attemptsOf_cons_ins, attemptsOf_cons_run, ho2, ha2, ha3]

/-- C3: every read, write or run_schedule call attempts its action at most
twice; when the cached attempt fails, a reopen failure is returned with no
retry of the action (one attempt total), and when the reopen succeeds the
retried action's outcome — error included — is returned after exactly two
attempts, the first error never reaching the caller. -/
theorem C3_retry_protocol {O : Type} (d : Driver) (c : Cache) (p : GpioPath)
    (flags : Direction) (a : Action O) (v0 : Nat) (sched : List Nat)
    (hclean : ∀ h, ((a h).2).all nonCtrl = true) :
    attemptsOf (do_with_handle d c p flags a).events ≤ 2 ∧
    attemptsOf (readPin d c p).events ≤ 2 ∧
    attemptsOf (writePin d c p v0).events ≤ 2 ∧
    attemptsOf (write_schedule d c p sched).events ≤ 2 ∧
    (∀ h e1 aevs, cacheLookup c p = some h → a h = (.error e1, aevs) →
      (∀ e oevs, openFresh d p flags = (.error e, oevs) →
        (do_with_handle d c p flags a).res = .error e ∧
        attemptsOf (do_with_handle d c p flags a).events = 1) ∧
      (∀ h2 oevs, openFresh d p flags = (.ok h2, oevs) →
        (do_with_handle d c p flags a).res = (a h2).1 ∧
        attemptsOf (do_with_handle d c p flags a).events = 2)) := by
  refine ⟨attemptsOf_dwh_le_two d c p flags a hclean, ?_, ?_, ?_,
    fun h e1 aevs hcl ha => dwh_retry_exact d c p flags a hclean h e1 aevs hcl ha⟩
  · rw [readPin]
    exact attemptsOf_dwh_le_two d c p .input _ (fun h => rfl)
  · rw [writePin]
    exact attemptsOf_dwh_le_two d c p .output _ (fun h => rfl)
  · rw [write_schedule]
    exact attemptsOf_dwh_le_two d c p .output _
      (fun h => scheduleLoop_nonCtrl d h p.pin sched 0)

/-- C3 witness: a cached output pin whose writes always fail with an io
error, against a driver whose reopen succeeds: the call returns the
retried attempt's io error after exactly two attempts. -/
theorem C3_retry_protocol_witness :
    attemptsOf (do_with_handle brokenLineDriver [(pinA, outHandle)] pinA .output
        (fun h => (brokenLineDriver.setValue h 1, [.setValueEv pinA.pin 1]))).events ≤ 2 ∧
    (do_with_handle brokenLineDriver [(pinA, outHandle)] pinA .output
        (fun h => (brokenLineDriver.setValue h 1, [.setValueEv pinA.pin 1]))).res =
      .error "io error" ∧
    attemptsOf (do_with_handle brokenLineDriver [(pinA, outHandle)] pinA .output
        (fun h => (brokenLineDriver.setValue h 1, [.setValueEv pinA.pin 1]))).events = 2 := by
  have main := C3_retry_protocol brokenLineDriver [(pinA, outHandle)] pinA .output
    (fun h => (brokenLineDriver.setValue h 1, [.setValueEv pinA.pin 1])) 1 []
    (fun h => rfl)
  have hh := (main.2.2.2.2 outHandle "io error" [.setValueEv pinA.pin 1]
      (by decide) rfl).2 ⟨0, .output⟩
    [.openDevice ("/dev/" ++ pinA.chip), .getLineEv pinA.pin,
      .requestEv .output 0 "http-gpio"] rfl
  exact ⟨main.1, hh.1, hh.2⟩

/-- C5: for a pin cached with a handle of the direction the operation
needs (the driver test double succeeding on matching directions), read and
write succeed on the first attempt against the cached handle, open no
device, leave the cache mapping untouched, and never take the exclusive
lock — so arbitrarily repeated calls all behave the same. -/
theorem C5_cached_fast_path (c : Cache) (p : GpioPath) (h : LineHandle)
    (hcl : cacheLookup c p = some h) :
    (h.dir = .input →
      (readPin nominalDriver c p).res = .ok 0 ∧
      (readPin nominalDriver c p).cache = c ∧
      opensOf (readPin nominalDriver c p).events = 0 ∧
      exclusiveAcqsOf (readPin nominalDriver c p).events = 0 ∧
      attemptsOf (readPin nominalDriver c p).events = 1 ∧
      (∀ n, (runReads nominalDriver c p n).2 = c ∧
        ∀ r ∈ (runReads nominalDriver c p n).1, r = .ok 0)) ∧
    (h.dir = .output → ∀ v,
      (writePin nominalDriver c p v).res = .ok () ∧
      (writePin nominalDriver c p v).cache = c ∧
      opensOf (writePin nominalDriver c p v).events = 0 ∧
      exclusiveAcqsOf (writePin nominalDriver c p v).events = 0 ∧
      attemptsOf (writePin nominalDriver c p v).events = 1 ∧
      (∀ n, (runWrites nominalDriver c p v n).2 = c ∧
        ∀ r ∈ (runWrites nominalDriver c p v n).1, r = .ok ())) := by
  constructor
  · intro hdir
    have ha : (fun hh => (nominalDriver.getValue hh, ([] : List Event))) h =
        (.ok 0, []) := by simp [nominalDriver, hdir]
    have hr : readPin nominalDriver c p =
        ⟨.ok 0, c, [.acquireShared, .runAction 1] ++ [] ++ [.releaseShared]⟩ := by
      rw [readPin]
      exact dwh_fast_ok nominalDriver c p .input _ h 0 [] hcl ha
    have hres : (readPin nominalDriver c p).res = .ok 0 := by rw [hr]
    have hcache : (readPin nominalDriver c p).cache = c := by rw [hr]
    refine ⟨hres, hcache, by rw [hr]; rfl, by rw [hr]; rfl, by rw [hr]; rfl, ?_⟩
    intro n
    induction n with
    | zero => exact ⟨rfl, by intro r hr0; simp [runReads] at hr0⟩
    | succ m ih =>
      refine ⟨?_, ?_⟩
      · show (runReads nominalDriver (readPin nominalDriver c p).cache p m).2 = c
        rw [hcache]
        exact ih.1
      · intro r hrm
        have hstep : runReads nominalDriver c p (m + 1) =
            ((readPin nominalDriver c p).res ::
              (runReads nominalDriver (readPin nominalDriver c p).cache p m).1,
             (runReads nominalDriver (readPin nominalDriver c p).cache p m).2) := rfl
        rw [hstep] at hrm
        rcases List.mem_cons.mp hrm with hh | hh
        · rw [hh, hres]
        · rw [hcache] at hh
          exact ih.2 r hh
  · intro hdir v
    have ha : (fun hh => (nominalDriver.setValue hh v, [Event.setValueEv p.pin v])) h =
        (.ok (), [Event.setValueEv p.pin v]) := by simp [nominalDriver, hdir]
    have hr : writePin nominalDriver c p v =
        ⟨.ok (), c, [.acquireShared, .runAction 1] ++ [Event.setValueEv p.pin v] ++
          [.releaseShared]⟩ := by
      rw [writePin]
      exact dwh_fast_ok nominalDriver c p .output _ h () [Event.setValueEv p.pin v] hcl ha
    have hres : (writePin nominalDriver c p v).res = .ok () := by rw [hr]
    have hcache : (writePin nominalDriver c p v).cache = c := by rw [hr]
    refine ⟨hres, hcache, by rw [hr]; rfl, by rw [hr]; rfl, by rw [hr]; rfl, ?_⟩
    intro n
    induction n with
    | zero => exact ⟨rfl, by intro r hr0; simp [runWrites] at hr0⟩
    | succ m ih =>
      refine ⟨?_, ?_⟩
      · show (runWrites nominalDriver (writePin nominalDriver c p v).cache p v m).2 = c
        rw [hcache]
        exact ih.1
      · intro r hrm
        have hstep : runWrites nominalDriver c p v (m + 1) =
            ((writePin nominalDriver c p v).res ::
              (runWrites nominalDriver (writePin nominalDriver c p v).cache p v m).1,
             (runWrites nominalDriver (writePin nominalDriver c p v).cache p v m).2) := rfl
        rw [hstep] at hrm
        rcases List.mem_cons.mp hrm with hh | hh
        · rw [hh, hres]
        · rw [hcache] at hh
          exact ih.2 r hh

/-- C5 witness: pin cached as input, three repeated reads all succeed
without reopening and leave the cache unchanged. -/
theorem C5_cached_fast_path_witness :
    (readPin nominalDriver [(pinA, inHandle)] pinA).res = .ok 0 ∧
    (readPin nominalDriver [(pinA, inHandle)] pinA).cache = [(pinA, inHandle)] ∧
    opensOf (readPin nominalDriver [(pinA, inHandle)] pinA).events = 0 ∧
    (runReads nominalDriver [(pinA, inHandle)] pinA 3).2 = [(pinA, inHandle)] := by
  have main := (C5_cached_fast_path [(pinA, inHandle)] pinA inHandle
    (by decide)).1 rfl
  exact ⟨main.1, main.2.1, main.2.2.1, (main.2.2.2.2.2 3).1⟩

/-- C8: run_schedule with the empty schedule writes nothing to the pin in
every case; against a cached handle it returns 0 without touching the
cache, and for an uncached pin it still opens the device and, when the
open succeeds, requests the line for output, caches the fresh handle and
returns 0. -/
theorem C8_empty_schedule (d : Driver) (c : Cache) (p : GpioPath) :
    writesOf (write_schedule d c p []).events = [] ∧
    (∀ h, cacheLookup c p = some h →
      (write_schedule d c p []).res = .ok 0 ∧
      (write_schedule d c p []).cache = c) ∧
    (cacheLookup c p = none →
      opensOf (write_schedule d c p []).events = 1 ∧
      ∀ h2 oevs, openFresh d p .output = (.ok h2, oevs) →
        (write_schedule d c p []).res = .ok 0 ∧
        cacheLookup (write_schedule d c p []).cache p = some h2 ∧
        Event.requestEv .output 0 "http-gpio" ∈ (write_schedule d c p []).events) := by
  rcases hcl : cacheLookup c p with _ | h0
  · rcases hof : openFresh d p .output with ⟨r, oevs⟩
    have hwo : writesOf oevs = [] := by
      have hh := openFresh_writesOf d p .output; rw [hof] at hh; exact hh
    have hoo : opensOf oevs = 1 := by
      have hh := opensOf_openFresh d p .output; rw [hof] at hh; exact hh
    rcases r with e | h2
    · have hdw : write_schedule d c p [] =
          ⟨.error e, cacheRemove c p,
           [Event.acquireShared, Event.releaseShared] ++
             ([Event.acquireExclusive, Event.removeEntry p] ++ oevs ++
               [Event.releaseExclusive])⟩ := by
        rw [write_schedule]
        exact dwh_none_openfail d c p .output
          (fun hh => scheduleLoop d hh p.pin [] 0) e oevs hcl hof
      have hev : (write_schedule d c p []).events =
          [Event.acquireShared, Event.releaseShared] ++
            ([Event.acquireExclusive, Event.removeEntry p] ++ oevs ++
              [Event.releaseExclusive]) := by rw [hdw]
      refine ⟨?_, ?_, ?_⟩
      · rw [hev]
        simp only [writesOf_append, hwo]
        rfl
      · intro h hsome
        exact Option.noConfusion hsome
      · intro _
        refine ⟨?_, ?_⟩
        · rw [hev]
          simp only [opensOf_append, hoo]
          rfl
        · intro h2 oevs2 hof2
          simp at hof2
    · have hdw : write_schedule d c p [] =
          ⟨.ok 0, cacheInsert c p h2,
           [Event.acquireShared, Event.releaseShared] ++
             ([Event.acquireExclusive, Event.removeEntry p] ++ oevs ++
               [Event.insertEntry p, Event.releaseExclusive, Event.runAction 1] ++
               [])⟩ := by
        rw [write_schedule]
        exact dwh_none_openok d c p .output
          (fun hh => scheduleLoop d hh p.pin [] 0) h2 oevs hcl hof
      have hev : (write_schedule d c p []).events =
          [Event.acquireShared, Event.releaseShared] ++
            ([Event.acquireExclusive, Event.removeEntry p] ++ oevs ++
              [Event.insertEntry p, Event.releaseExclusive, Event.runAction 1] ++
              []) := by rw [hdw]
      refine ⟨?_, ?_, ?_⟩
      · rw [hev]
        simp only [writesOf_append, hwo]
        rfl
      · intro h hsome
        exact Option.noConfusion hsome
      · intro _
        refine ⟨?_, ?_⟩
        · rw [hev]
          simp only [opensOf_append, hoo]
          rfl
        · intro h3 oevs2 hof2
          injection hof2 with h23 hoe
          injection h23 with h23
          subst h23
          have hm := requestEv_mem_openFresh_ok d p .output h2 oevs hof
          refine ⟨by rw [hdw], ?_, ?_⟩
          · rw [hdw]
            exact cacheLookup_cacheInsert_self c p h2
          · rw [hev]
            simp [List.mem_append, hm]
  · have ha : (fun hh => scheduleLoop d hh p.pin [] 0) h0 =
        (Except.ok 0, ([] : List Event)) := rfl
    have hdw : write_schedule d c p [] =
        ⟨.ok 0, c, [Event.acquireShared, Event.runAction 1] ++ [] ++
          [Event.releaseShared]⟩ := by
      rw [write_schedule]
      exact dwh_fast_ok d c p .output _ h0 0 [] hcl ha
    refine ⟨?_, ?_, ?_⟩
    · rw [hdw]
      rfl
    · intro h hsome
      exact ⟨by rw [hdw], by rw [hdw]⟩
    · intro hnone
      exact Option.noConfusion hnone

/-- C8 witness: an uncached pin, empty schedule, nominal driver: nothing
is written, the result is 0, and the pin ends up cached for output. -/
theorem C8_empty_schedule_witness :
    writesOf (write_schedule nominalDriver [] pinA []).events = [] ∧
    (write_schedule nominalDriver [] pinA []).res = .ok 0 ∧
    cacheLookup (write_schedule nominalDriver [] pinA []).cache pinA =
      some ⟨0, .output⟩ ∧
    Event.requestEv .output 0 "http-gpio" ∈
      (write_schedule nominalDriver [] pinA []).events := by
  have main := C8_empty_schedule nominalDriver [] pinA
  have hh := (main.2.2 rfl).2 ⟨0, .output⟩
    [.openDevice ("/dev/" ++ pinA.chip), .getLineEv pinA.pin,
      .requestEv .output 0 "http-gpio"] rfl
  exact ⟨main.1, hh.1, hh.2.1, hh.2.2⟩

/-- C6: the cache never holds two entries for one PinIdentity: starting
from the empty map, any sequence of operations preserves key uniqueness
(concurrent operations serialize their map mutations under the exclusive
lock, so interleavings linearize to such sequences); a successful reopen
leaves exactly one entry for the pin, and entries of other pins are
untouched by any operation. -/
theorem C6_unique_cache_entry :
    (∀ (d : Driver) (ops : List (GpioPath × Direction × Action Nat)),
      nodupKeys (runOps d [] ops)) ∧
    (∀ (d : Driver) (ops : List (GpioPath × Direction × Action Nat)) (q : GpioPath),
      countEntries (runOps d [] ops) q ≤ 1) ∧
    (∀ (O : Type) (d : Driver) (c : Cache) (p : GpioPath) (flags : Direction)
      (a : Action O), nodupKeys c →
      (∀ q, countEntries (do_with_handle d c p flags a).cache q ≤ 1) ∧
      (∀ h2 oevs, openFresh d p flags = (.ok h2, oevs) →
        (cacheLookup c p = none ∨
          ∃ h e1 aevs, cacheLookup c p = some h ∧ a h = (.error e1, aevs)) →
        countEntries (do_with_handle d c p flags a).cache p = 1) ∧
      (∀ q, q ≠ p →
        cacheLookup (do_with_handle d c p flags a).cache q = cacheLookup c q)) := by
  refine ⟨fun d ops => nodupKeys_runOps d ops [] trivial,
    fun d ops q => countEntries_le_one _ (nodupKeys_runOps d ops [] trivial) q,
    ?_⟩
  intro O d c p flags a hc
  refine ⟨fun q => countEntries_le_one _ (nodupKeys_dwh d c p flags a hc) q, ?_, ?_⟩
  · intro h2 oevs hof hfirst
    rcases hfirst with hcl | ⟨h, e1, aevs, hcl, ha⟩
    · rw [dwh_none_openok d c p flags a h2 oevs hcl hof]
      exact countEntries_cacheInsert_self c p h2
    · rw [dwh_fail_openok d c p flags a h h2 e1 aevs oevs hcl ha hof]
      exact countEntries_cacheInsert_self c p h2
  · intro q hq
    rcases dwh_cache_cases d c p flags a with hcc | hcc | ⟨hh, hcc⟩ <;> rw [hcc]
    · exact cacheLookup_cacheRemove_ne c p q hq
    · exact cacheLookup_cacheInsert_ne c p q hh hq

/-- C6 witness: one read through the empty cache keeps keys unique, and a
write against a pin cached with the wrong direction ends with exactly one
entry for that pin. -/
theorem C6_unique_cache_entry_witness :
    nodupKeys (runOps nominalDriver []
      [(pinA, .input, fun h => (nominalDriver.getValue h, []))]) ∧
    countEntries (do_with_handle nominalDriver [(pinA, inHandle)] pinA .output
      (fun h => (nominalDriver.setValue h 1, [.setValueEv pinA.pin 1]))).cache
      pinA = 1 := by
  constructor
  · exact C6_unique_cache_entry.1 nominalDriver
      [(pinA, .input, fun h => (nominalDriver.getValue h, []))]
  · exact (C6_unique_cache_entry.2.2 Unit nominalDriver [(pinA, inHandle)] pinA
      .output (fun h => (nominalDriver.setValue h 1, [.setValueEv pinA.pin 1]))
      ⟨rfl, trivial⟩).2.1 ⟨0, .output⟩
      [.openDevice ("/dev/" ++ pinA.chip), .getLineEv pinA.pin,
        .requestEv .output 0 "http-gpio"] rfl
      (Or.inr ⟨inHandle, "wrong direction", [.setValueEv pinA.pin 1],
        by decide, rfl⟩)

theorem dwh_lock_discipline {O : Type} (d : Driver) (c : Cache) (p : GpioPath)
    (flags : Direction) (a : Action O)
    (hclean : ∀ h, ((a h).2).all nonCtrl = true) :
    sleepsWhileExclusive (do_with_handle d c p flags a).events = 0 ∧
    actionWhileExclusive (do_with_handle d c p flags a).events = false := by
  have hoall := openFresh_nonCtrl d p flags
  have hosleep := openFresh_sleepsOf d p flags
  rcases hcl : cacheLookup c p with _ | h0
  · rcases hof : openFresh d p flags with ⟨r, oevs⟩
    have ob : oevs.all nonCtrl = true := by rw [hof] at hoall; exact hoall
    have os : sleepsOf oevs = [] := by rw [hof] at hosleep; exact hosleep
    rcases r with e | h2
    · rw [dwh_none_openfail d c p flags a e oevs hcl hof]
      constructor
      · simp [sleepsWhileExclusive, sleepsExclAux_append, exclAfter_append,
          sleepsExclAux, exclAfter, sleepsExclAux_no_sleep oevs true ob os,
          sleepsExclAux_no_sleep oevs false ob os,
          exclAfter_nonCtrl oevs true ob, exclAfter_nonCtrl oevs false ob]
      · simp [actionWhileExclusive, actionExclAux_append, exclAfter_append,
          actionExclAux, exclAfter, actionExclAux_nonCtrl oevs true ob,
          actionExclAux_nonCtrl oevs false ob,
          exclAfter_nonCtrl oevs true ob, exclAfter_nonCtrl oevs false ob]
    · rw [dwh_none_openok d c p flags a h2 oevs hcl hof]
      have a2b := hclean h2
      constructor
      · simp [sleepsWhileExclusive, sleepsExclAux_append, exclAfter_append,
          sleepsExclAux, exclAfter, sleepsExclAux_no_sleep oevs true ob os,
          sleepsExclAux_no_sleep oevs false ob os,
          exclAfter_nonCtrl oevs true ob, exclAfter_nonCtrl oevs false ob,
          sleepsExclAux_nonCtrl_false _ a2b]
      · simp [actionWhileExclusive, actionExclAux_append, exclAfter_append,
          actionExclAux, exclAfter, actionExclAux_nonCtrl oevs true ob,
          actionExclAux_nonCtrl oevs false ob,
          exclAfter_nonCtrl oevs true ob, exclAfter_nonCtrl oevs false ob,
          actionExclAux_nonCtrl _ false a2b]
  · rcases ha : a h0 with ⟨r1, aevs⟩
    have ab : aevs.all nonCtrl = true := by
      have hh := hclean h0; rw [ha] at hh; exact hh
    rcases r1 with e1 | v
    · rcases hof : openFresh d p flags with ⟨r, oevs⟩
      have ob : oevs.all nonCtrl = true := by rw [hof] at hoall; exact hoall
      have os : sleepsOf oevs = [] := by rw [hof] at hosleep; exact hosleep
      rcases r with e | h2
      · rw [dwh_fail_openfail d c p flags a h0 e1 e aevs oevs hcl ha hof]
        constructor
        · simp [sleepsWhileExclusive, sleepsExclAux_append, exclAfter_append,
            sleepsExclAux, exclAfter, sleepsExclAux_no_sleep oevs true ob os,
            sleepsExclAux_no_sleep oevs false ob os,
            exclAfter_nonCtrl oevs true ob, exclAfter_nonCtrl oevs false ob,
            sleepsExclAux_nonCtrl_false _ ab, exclAfter_nonCtrl _ false ab]
        · simp [actionWhileExclusive, actionExclAux_append, exclAfter_append,
            actionExclAux, exclAfter, actionExclAux_nonCtrl oevs true ob,
            actionExclAux_nonCtrl oevs false ob,
            exclAfter_nonCtrl oevs true ob, exclAfter_nonCtrl oevs false ob,
            actionExclAux_nonCtrl _ false ab, exclAfter_nonCtrl _ false ab]
      · rw [dwh_fail_openok d c p flags a h0 h2 e1 aevs oevs hcl ha hof]
        have a2b := hclean h2
        constructor
        · simp [sleepsWhileExclusive, sleepsExclAux_append, exclAfter_append,
            sleepsExclAux, exclAfter, sleepsExclAux_no_sleep oevs true ob os,
            sleepsExclAux_no_sleep oevs false ob os,
            exclAfter_nonCtrl oevs true ob, exclAfter_nonCtrl oevs false ob,
            sleepsExclAux_nonCtrl_false _ ab, exclAfter_nonCtrl _ false ab,
            sleepsExclAux_nonCtrl_false _ a2b]
        · simp [actionWhileExclusive, actionExclAux_append, exclAfter_append,
            actionExclAux, exclAfter, actionExclAux_nonCtrl oevs true ob,
            actionExclAux_nonCtrl oevs false ob,
            exclAfter_nonCtrl oevs true ob, exclAfter_nonCtrl oevs false ob,
            actionExclAux_nonCtrl _ false ab, exclAfter_nonCtrl _ false ab,
            actionExclAux_nonCtrl _ false a2b]
    · rw [dwh_fast_ok d c p flags a h0 v aevs hcl ha]
      constructor
      · simp [sleepsWhileExclusive, sleepsExclAux_append, exclAfter_append,
          sleepsExclAux, exclAfter, sleepsExclAux_nonCtrl_false _ ab,
          exclAfter_nonCtrl _ false ab]
      · simp [actionWhileExclusive, actionExclAux_append, exclAfter_append,
          actionExclAux, exclAfter, actionExclAux_nonCtrl _ false ab,
          exclAfter_nonCtrl _ false ab]

/-- C4 (amended): a run_schedule suspension never holds the exclusive
cache lock and no action attempt starts while the exclusive lock is held;
however, a fast-path blink holds the SHARED read lock throughout its
sleeps, so an operation that must take the exclusive lock concurrently —
a read of an uncached or failing pin B — is blocked for the schedule's
full summed duration, not merely for the blink's exclusive-lock window. -/
theorem C4_lock_discipline (d : Driver) (c : Cache) (p : GpioPath)
    (v0 : Nat) (sched : List Nat) :
    sleepsWhileExclusive (write_schedule d c p sched).events = 0 ∧
    actionWhileExclusive (write_schedule d c p sched).events = false ∧
    actionWhileExclusive (readPin d c p).events = false ∧
    actionWhileExclusive (writePin d c p v0).events = false ∧
    (∀ h, cacheLookup c p = some h →
      (∀ val, val < 2 → d.setValue h val = .ok ()) →
      blocksExclusiveFor (write_schedule d c p sched).events = sched.sum) := by
  have hs := dwh_lock_discipline d c p .output
    (fun hh => scheduleLoop d hh p.pin sched 0)
    (fun hh => scheduleLoop_nonCtrl d hh p.pin sched 0)
  have hrd := dwh_lock_discipline d c p .input
    (fun hh => (d.getValue hh, [])) (fun hh => rfl)
  have hwr := dwh_lock_discipline d c p .output
    (fun hh => (d.setValue hh v0, [.setValueEv p.pin v0])) (fun hh => rfl)
  refine ⟨?_, ?_, ?_, ?_, ?_⟩
  · rw [write_schedule]; exact hs.1
  · rw [write_schedule]; exact hs.2
  · rw [readPin]; exact hrd.2
  · rw [writePin]; exact hwr.2
  · intro h hcl hset
    obtain ⟨e1, e2, e3⟩ := scheduleLoop_spec d h p.pin hset sched 0 (by omega)
    have ha : (fun hh => scheduleLoop d hh p.pin sched 0) h =
        (Except.ok ((0 + sched.length) % 2), (scheduleLoop d h p.pin sched 0).2) := by
      show scheduleLoop d h p.pin sched 0 = _
      rw [← e1]
    have hdw : write_schedule d c p sched =
        ⟨.ok ((0 + sched.length) % 2), c,
         [Event.acquireShared, Event.runAction 1] ++
           (scheduleLoop d h p.pin sched 0).2 ++ [Event.releaseShared]⟩ := by
      rw [write_schedule]
      exact dwh_fast_ok d c p .output _ h _ _ hcl ha
    have hab : ((scheduleLoop d h p.pin sched 0).2).all nonCtrl = true :=
      scheduleLoop_nonCtrl d h p.pin sched 0
    rw [hdw]
    have hsh : sleepsWhileShared ([Event.acquireShared, Event.runAction 1] ++
        (scheduleLoop d h p.pin sched 0).2 ++ [Event.releaseShared]) = sched.sum := by
      simp [sleepsWhileShared, sleepsSharedAux_append, sharedAfter_append,
        sleepsSharedAux, sharedAfter, sleepsSharedAux_nonCtrl_true _ hab,
        sharedAfter_nonCtrl _ true hab, e3]
    have hse : sleepsWhileExclusive ([Event.acquireShared, Event.runAction 1] ++
        (scheduleLoop d h p.pin sched 0).2 ++ [Event.releaseShared]) = 0 := by
      simp [sleepsWhileExclusive, sleepsExclAux_append, exclAfter_append,
        sleepsExclAux, exclAfter, sleepsExclAux_nonCtrl_false _ hab,
        exclAfter_nonCtrl _ false hab]
    show blocksExclusiveFor ([Event.acquireShared, Event.runAction 1] ++
      (scheduleLoop d h p.pin sched 0).2 ++ [Event.releaseShared]) = sched.sum
    unfold blocksExclusiveFor
    rw [hsh, hse]
    omega

/-- C4 counterexample: the blink [100, 50, 200] on a cached output pin
runs entirely on the fast path: its exclusive-lock window is 0, yet it
sleeps 350ms while holding the shared lock, which under the RwLock
semantics blocks a concurrent exclusive acquirer (a read of an uncached
pin B) for 350ms — not bounded by the exclusive-lock window. -/
theorem C4_cex :
    sleepsWhileExclusive (write_schedule nominalDriver [(pinA, outHandle)] pinA
        [100, 50, 200]).events = 0 ∧
    blocksExclusiveFor (write_schedule nominalDriver [(pinA, outHandle)] pinA
        [100, 50, 200]).events = 350 ∧
    ¬ (blocksExclusiveFor (write_schedule nominalDriver [(pinA, outHandle)] pinA
        [100, 50, 200]).events ≤
      sleepsWhileExclusive (write_schedule nominalDriver [(pinA, outHandle)] pinA
        [100, 50, 200]).events) := by
  decide

/-- C4 witness: the blink [100, 50, 200] against a cached output pin
sleeps nothing under the exclusive lock, starts no action under it, and
blocks a concurrent exclusive acquirer for the full 350ms. -/
theorem C4_lock_discipline_witness :
    sleepsWhileExclusive (write_schedule nominalDriver [(pinA, outHandle)] pinA
        [100, 50, 200]).events = 0 ∧
    actionWhileExclusive (write_schedule nominalDriver [(pinA, outHandle)] pinA
        [100, 50, 200]).events = false ∧
    blocksExclusiveFor (write_schedule nominalDriver [(pinA, outHandle)] pinA
        [100, 50, 200]).events = List.sum [100, 50, 200] := by
  have main := C4_lock_discipline nominalDriver [(pinA, outHandle)] pinA 0
    [100, 50, 200]
  exact ⟨main.1, main.2.1,
    main.2.2.2.2 outHandle (by decide) (fun val hv => rfl)⟩

theorem write_schedule_fast_spec (d : Driver) (c : Cache) (p : GpioPath)
    (h : LineHandle) (sched : List Nat)
    (hcl : cacheLookup c p = some h)
    (hset : ∀ val, val < 2 → d.setValue h val = .ok ()) :
    (write_schedule d c p sched).res = .ok (sched.length % 2) ∧
    writesOf (write_schedule d c p sched).events =
      (List.range sched.length).map (fun i => i % 2) ∧
    sleepsOf (write_schedule d c p sched).events = sched := by
  obtain ⟨e1, e2, e3⟩ := scheduleLoop_spec d h p.pin hset sched 0 (by omega)
  have ha : (fun hh => scheduleLoop d hh p.pin sched 0) h =
      (Except.ok ((0 + sched.length) % 2), (scheduleLoop d h p.pin sched 0).2) := by
    show scheduleLoop d h p.pin sched 0 = _
    rw [← e1]
  have hdw : write_schedule d c p sched =
      ⟨.ok ((0 + sched.length) % 2), c,
       [Event.acquireShared, Event.runAction 1] ++
         (scheduleLoop d h p.pin sched 0).2 ++ [Event.releaseShared]⟩ := by
    rw [write_schedule]
    exact dwh_fast_ok d c p .output _ h _ _ hcl ha
  rw [hdw]
  refine ⟨?_, ?_, ?_⟩
  · show Except.ok ((0 + sched.length) % 2) = Except.ok (sched.length % 2)
    rw [Nat.zero_add]
  · show writesOf ([Event.acquireShared, Event.runAction 1] ++
        (scheduleLoop d h p.pin sched 0).2 ++ [Event.releaseShared]) = _
    rw [writesOf_append, writesOf_append, e2]
    show ([] ++ List.map (fun i => (0 + i) % 2) (List.range sched.length)) ++ [] = _
    rw [List.append_nil, List.nil_append]
    exact List.map_congr_left fun i _ => by rw [Nat.zero_add]
  · show sleepsOf ([Event.acquireShared, Event.runAction 1] ++
        (scheduleLoop d h p.pin sched 0).2 ++ [Event.releaseShared]) = _
    rw [sleepsOf_append, sleepsOf_append, e3]
    show ([] ++ sched) ++ [] = sched
    rw [List.append_nil, List.nil_append]

/-- C1 (amended): run_schedule toggles the pin starting from 0, but the
XOR-1 flip happens between the write and the hold, not after it: for `n`
durations the pin receives exactly `n` writes, the `i`-th being `i % 2`,
each held for the corresponding duration, and the final flipped value is
returned without being written.  For [100, 50, 200] the written sequence
is 0, then 1 after 100ms, then 0 after 50ms more — and nothing after the
final 200ms hold. -/
theorem C1_schedule_toggling (d : Driver) (c : Cache) (p : GpioPath)
    (h : LineHandle) (sched : List Nat)
    (hcl : cacheLookup c p = some h)
    (hset : ∀ val, val < 2 → d.setValue h val = .ok ()) :
    (write_schedule d c p sched).res = .ok (sched.length % 2) ∧
    writesOf (write_schedule d c p sched).events =
      (List.range sched.length).map (fun i => i % 2) ∧
    sleepsOf (write_schedule d c p sched).events = sched :=
  write_schedule_fast_spec d c p h sched hcl hset

/-- C1 counterexample: for [100, 50, 200] the pin's written value
sequence is [0, 1, 0]; the claimed sequence 0, 1, 0, 1 — a fourth write
of 1 after the last hold — does not occur. -/
theorem C1_cex :
    writesOf (write_schedule nominalDriver [(pinA, outHandle)] pinA
        [100, 50, 200]).events = [0, 1, 0] ∧
    ¬ (writesOf (write_schedule nominalDriver [(pinA, outHandle)] pinA
        [100, 50, 200]).events = [0, 1, 0, 1]) := by
  decide

/-- C1 witness: for [100, 50, 200] against a cached output pin the call
returns 1, writes [0, 1, 0] and sleeps 100, 50 then 200 milliseconds. -/
theorem C1_schedule_toggling_witness :
    (write_schedule nominalDriver [(pinA, outHandle)] pinA [100, 50, 200]).res =
      .ok ([100, 50, 200].length % 2) ∧
    writesOf (write_schedule nominalDriver [(pinA, outHandle)] pinA
        [100, 50, 200]).events =
      (List.range [100, 50, 200].length).map (fun i => i % 2) ∧
    sleepsOf (write_schedule nominalDriver [(pinA, outHandle)] pinA
        [100, 50, 200]).events = [100, 50, 200] :=
  C1_schedule_toggling nominalDriver [(pinA, outHandle)] pinA outHandle
    [100, 50, 200] (by decide) (fun val hv => rfl)

/-- C2 (amended): run_schedule's return value is not the final value it
wrote but that value's XOR-1 flip: for a non-empty schedule the last
write is (length-1) % 2 and the call returns length % 2; for
[100, 50, 200] it returns 1 while the pin's last written value is 0. -/
theorem C2_returned_vs_written (d : Driver) (c : Cache) (p : GpioPath)
    (h : LineHandle) (sched : List Nat) (hne : sched ≠ [])
    (hcl : cacheLookup c p = some h)
    (hset : ∀ val, val < 2 → d.setValue h val = .ok ()) :
    (write_schedule d c p sched).res = .ok (sched.length % 2) ∧
    (writesOf (write_schedule d c p sched).events).getLast? =
      some ((sched.length - 1) % 2) ∧
    sched.length % 2 = ((sched.length - 1) % 2) ^^^ 1 := by
  obtain ⟨r1, r2, r3⟩ := write_schedule_fast_spec d c p h sched hcl hset
  have hn : 1 ≤ sched.length := List.length_pos.mpr hne
  refine ⟨r1, ?_, ?_⟩
  · rw [r2]
    exact getLast_map_range_mod sched.length hn
  · rcases Nat.mod_two_eq_zero_or_one (sched.length - 1) with hpar | hpar <;>
      rw [hpar]
    · rw [show (0 ^^^ 1 : Nat) = 1 by decide]
      omega
    · rw [show (1 ^^^ 1 : Nat) = 0 by decide]
      omega

/-- C2 counterexample: for [100, 50, 200] the call returns 1, but the
final value written to the pin is 0 — the returned value is not the final
value written. -/
theorem C2_cex :
    (write_schedule nominalDriver [(pinA, outHandle)] pinA [100, 50, 200]).res =
      .ok 1 ∧
    (writesOf (write_schedule nominalDriver [(pinA, outHandle)] pinA
        [100, 50, 200]).events).getLast? = some 0 ∧
    (write_schedule nominalDriver [(pinA, outHandle)] pinA [100, 50, 200]).res ≠
      .ok 0 := by
  refine ⟨rfl, by decide, ?_⟩
  intro hcon
  have h2 : (Except.ok 1 : Except String Nat) = Except.ok 0 := hcon
  injection h2 with h3
  exact absurd h3 (by decide)

/-- C2 witness: for [100, 50, 200] the returned value (1) is the XOR-1
flip of the last written value (0). -/
theorem C2_returned_vs_written_witness :
    (write_schedule nominalDriver [(pinA, outHandle)] pinA [100, 50, 200]).res =
      .ok ([100, 50, 200].length % 2) ∧
    (writesOf (write_schedule nominalDriver [(pinA, outHandle)] pinA
        [100, 50, 200]).events).getLast? =
      some (([100, 50, 200].length - 1) % 2) ∧
    [100, 50, 200].length % 2 = (([100, 50, 200].length - 1) % 2) ^^^ 1 :=
  C2_returned_vs_written nominalDriver [(pinA, outHandle)] pinA outHandle
    [100, 50, 200] (by decide) (by decide) (fun val hv => rfl)

end HttpGpio
